import Mathlib

/-!
# Verification of the mini2-chunks query overlay

Shallow embedding of the overlay's query-execution engine:

* `src/overlay_core/config.py`   — `ProcessSpec`, `OverlayConfig`
* `src/overlay_core/data_store.py` — `DataStore.query` / `DataStore._matches`
* `src/overlay_core/strategies.py` — fairness and chunking strategies,
  `RoundRobinForwarding.forward_blocking`
* `src/overlay_core/facade.py`   — `QueryOrchestrator` (`execute_query`,
  `get_chunk`, `_parse_filters`, `_collect_records`,
  `_compute_leader_allocations`, `_select_forward_targets`,
  `_request_neighbor_records`)
* `src/node.py`                  — `QueryResult` (chunk slicing)

Conventions of the embedding:

* Python floats that only ever hold numeric filter/row values are modelled as
  `Int`; the one float constant `0.8` (fairness) is modelled as the exact
  rational `4/5 : ℚ` (for the integer counter values involved the comparison
  against the IEEE double `0.8` and against `4/5` coincide).
* JSON decoding of `query_params` is modelled by `Option QueryFilters`:
  `none` stands for a payload that does not decode into a JSON object (all
  decode failures surface as an `invalid_query:` status, which is the only
  observable the claims use).
* Remote RPCs (`_request_neighbor_records`' call + chunk drain) are modelled
  by an oracle function supplied to the orchestrator; the claims proved about
  the orchestrator hold for every oracle.
* Wall-clock time is an explicit `now : Nat` parameter; `uuid.uuid4()` is an
  explicit `freshUid : String` parameter.
* `src/overlay_core/result_cache.py`, `request_controller.py` and
  `metrics.py` are imported by the facade but are not part of the source
  snapshot; `ChunkedResult`, `ResultCache` and the admission controller are
  modelled from spec §4.3/§4.4 (marked `Modelled from the spec:` below).
  Metrics recording has no observable relevant to any claim and is elided.
-/

set_option autoImplicit false

namespace Mini2Chunks

/-- A dataset row (`DataStore._convert_row` in `src/overlay_core/data_store.py`).
Numeric fields are modelled as `Int`. -/
structure Row where
  latitude : Int
  longitude : Int
  timestamp : String
  parameter : String
  value : Int
  unitName : String
  aqi : Int
  siteName : String
  date : String
deriving Repr, DecidableEq

/-- The filter object decoded from `query_params` (spec §6 filter JSON
schema; all keys optional).  `limit` is `Option Int`: `none` when the key is
absent. -/
structure QueryFilters where
  parameter : Option String := none
  minValue : Option Int := none
  maxValue : Option Int := none
  dateStart : Option String := none
  dateEnd : Option String := none
  latMin : Option Int := none
  latMax : Option Int := none
  lonMin : Option Int := none
  lonMax : Option Int := none
  team : Option String := none
  limit : Option Int := none
deriving Repr, DecidableEq

/-- `ProcessSpec` from `src/overlay_core/config.py`. -/
structure ProcessSpec where
  id : String
  role : String
  team : String
  host : String
  port : Int
  neighbors : List String
deriving Repr, DecidableEq

/-- `OverlayConfig` from `src/overlay_core/config.py`: a map from process id
to `ProcessSpec`, modelled as an association list in load order. -/
structure OverlayConfig where
  processes : List (String × ProcessSpec)
deriving Repr, DecidableEq

/-- Lookup of a process id (`pid in self._processes` / `self._processes[pid]`). -/
def OverlayConfig.getProc (c : OverlayConfig) (pid : String) : Option ProcessSpec :=
  (c.processes.find? (fun e => e.1 == pid)).map (fun e => e.2)

/-- `OverlayConfig.__init__` on an already-decoded `processes` payload.  The
constructor only checks that the map is non-empty (and, per entry, the
presence of the required fields, which the typed `ProcessSpec` guarantees
here); it performs no validation of neighbor ids. -/
def OverlayConfig.load (procs : List (String × ProcessSpec)) : Except String OverlayConfig :=
  if procs.isEmpty then
    .error "Configuration must include at least one process definition."
  else
    .ok ⟨procs⟩

/-- `OverlayConfig.neighbors_of`: neighbor ids without a process definition
are silently dropped (`if nid in self._processes`).  The source raises
`KeyError` when `pid` itself is undefined; the orchestrator only ever asks
for its own configured id, so that arm returns `[]` here. -/
def OverlayConfig.neighborsOf (c : OverlayConfig) (pid : String) : List ProcessSpec :=
  match c.getProc pid with
  | none => []
  | some p => p.neighbors.filterMap c.getProc

/-- Python `str.lower()`, as a structural map so that the kernel can
evaluate it (only ASCII team/parameter names occur in this system). -/
def strLower (s : String) : String := ⟨s.data.map Char.toLower⟩

/-- `DataStore._matches` from `src/overlay_core/data_store.py`.  String
filters use Python truthiness (`""` disables the predicate); numeric bounds
are inclusive; `parameter` compares case-insensitively. -/
def rowMatches (r : Row) (f : QueryFilters) : Bool :=
  (match f.parameter with
   | some p => p == "" || strLower r.parameter == strLower p
   | none => true) &&
  (match f.minValue with
   | some v => decide (v ≤ r.value)
   | none => true) &&
  (match f.maxValue with
   | some v => decide (r.value ≤ v)
   | none => true) &&
  (match f.dateStart with
   | some d => d == "" || decide (d ≤ r.date)
   | none => true) &&
  (match f.dateEnd with
   | some d => d == "" || decide (r.date ≤ d)
   | none => true) &&
  (match f.latMin with
   | some v => decide (v ≤ r.latitude)
   | none => true) &&
  (match f.latMax with
   | some v => decide (r.latitude ≤ v)
   | none => true) &&
  (match f.lonMin with
   | some v => decide (v ≤ r.longitude)
   | none => true) &&
  (match f.lonMax with
   | some v => decide (r.longitude ≤ v)
   | none => true)

/-- Python truthiness of an optional integer (`None` and `0` are falsy). -/
def pyTruthyInt (v : Option Int) : Option Int :=
  match v with
  | some x => if x = 0 then none else some x
  | none => none

/-- `DataStore.query` from `src/overlay_core/data_store.py`, over the loaded
record list: `remaining = limit or filters.get("limit")`, falling back to
the record count when falsy, clamped below by 1, then matching rows are
collected in order until `remaining` is reached. -/
def dataStoreQuery (records : List Row) (filters : QueryFilters) (limit : Option Int) : List Row :=
  let fallback := pyTruthyInt filters.limit
  let chosen : Int :=
    match pyTruthyInt limit with
    | some v => v
    | none =>
      match fallback with
      | some v => v
      | none => (records.length : Int)
  let remaining := max 1 chosen
  (records.filter (fun r => rowMatches r filters)).take remaining.toNat

/-- A chunk as handed back by `QueryResult.get_chunk` / spec §4.4's
`getChunk`: rows, index, total, last-chunk flag. -/
structure Chunk where
  data : List Row
  chunkIndex : Int
  totalChunks : Nat
  isLast : Bool
deriving Repr, DecidableEq

/-- `QueryResult` from `src/node.py` (lines 105-128): a stored result with
chunking capability. -/
structure QueryResult where
  uid : String
  data : List Row
  chunkSize : Nat
deriving Repr, DecidableEq

/-- `self.total_records = len(data)`. -/
def QueryResult.totalRecords (q : QueryResult) : Nat := q.data.length

/-- `self.total_chunks = (len(data) + chunk_size - 1) // chunk_size if data else 0`. -/
def QueryResult.totalChunks (q : QueryResult) : Nat :=
  if q.data.isEmpty then 0 else (q.data.length + q.chunkSize - 1) / q.chunkSize

/-- `QueryResult.get_chunk`: `None` when the index is outside
`[0, total_chunks)`, otherwise the slice `data[start:end]` with
`start = chunk_index * chunk_size`, `end = min(start + chunk_size, len(data))`,
and `is_last = (chunk_index == total_chunks - 1)`. -/
def QueryResult.getChunk (q : QueryResult) (chunkIndex : Int) : Option Chunk :=
  if chunkIndex < 0 ∨ (q.totalChunks : Int) ≤ chunkIndex then none
  else
    let start := chunkIndex.toNat * q.chunkSize
    let stop := min (start + q.chunkSize) q.data.length
    some { data := (q.data.drop start).take (stop - start)
           chunkIndex := chunkIndex
           totalChunks := q.totalChunks
           isLast := chunkIndex == (q.totalChunks : Int) - 1 }

/-! ## Strategies (`src/overlay_core/strategies.py`) -/

/-- Sum of all per-team active counters (`sum(active_per_team.values())`). -/
def sumActive (m : List (String × Nat)) : Nat :=
  (m.map (fun e => e.2)).sum

/-- `active_per_team.get(key, 0)`. -/
def lookupCount (m : List (String × Nat)) (key : String) : Nat :=
  match m.find? (fun e => e.1 == key) with
  | some e => e.2
  | none => 0

/-- `sum(v for k, v in active_per_team.items() if k != team_key)`. -/
def otherTeamsTotal (m : List (String × Nat)) (key : String) : Nat :=
  sumActive (m.filter (fun e => e.1 != key))

/-- `StrictPerTeamFairness.should_admit` (strategies.py lines 278-297). -/
def strictShouldAdmit (team : Option String) (m : List (String × Nat))
    (maxActive perTeamLimit : Nat) : Bool :=
  if sumActive m ≥ maxActive then false
  else
    match team with
    | some t =>
      if t = "" then true
      else if lookupCount m (strLower t) ≥ perTeamLimit then false else true
    | none => true

/-- `WeightedFairness.should_admit` (strategies.py lines 300-322): as strict,
but a team at/over `per_team_limit` is still admitted unless the other
teams' total is strictly above `per_team_limit * 0.8` (the float `0.8`
is modelled as the exact rational `4/5`). -/
def weightedShouldAdmit (team : Option String) (m : List (String × Nat))
    (maxActive perTeamLimit : Nat) : Bool :=
  if sumActive m ≥ maxActive then false
  else
    match team with
    | some t =>
      if t = "" then true
      else
        let key := strLower t
        if lookupCount m key ≥ perTeamLimit ∧
            ((otherTeamsTotal m key : ℚ) > (perTeamLimit : ℚ) * (4 / 5)) then
          false
        else true
    | none => true

/-- `HybridFairness.should_admit` (strategies.py lines 325-346): strict at or
above 80% total load, weighted below. -/
def hybridShouldAdmit (team : Option String) (m : List (String × Nat))
    (maxActive perTeamLimit : Nat) : Bool :=
  let total := sumActive m
  let loadRatio : ℚ := if maxActive > 0 then (total : ℚ) / (maxActive : ℚ) else 0
  if loadRatio ≥ 4 / 5 then strictShouldAdmit team m maxActive perTeamLimit
  else weightedShouldAdmit team m maxActive perTeamLimit

/-- The closed enumeration of fairness strategies selected at startup. -/
inductive FairnessKind where
  | strict
  | weighted
  | hybrid
deriving Repr, DecidableEq

/-- Dispatch to the selected `should_admit`. -/
def fairnessShouldAdmit (k : FairnessKind) (team : Option String)
    (m : List (String × Nat)) (maxActive perTeamLimit : Nat) : Bool :=
  match k with
  | .strict => strictShouldAdmit team m maxActive perTeamLimit
  | .weighted => weightedShouldAdmit team m maxActive perTeamLimit
  | .hybrid => hybridShouldAdmit team m maxActive perTeamLimit

/-- `FixedChunking.compute_chunk_size` (strategies.py lines 241-248). -/
def fixedComputeChunkSize (chunkSize : Nat) (totalRecords : Nat)
    (filters : QueryFilters) : Nat :=
  chunkSize

/-- `AdaptiveChunking.compute_chunk_size` (strategies.py lines 251-266). -/
def adaptiveComputeChunkSize (baseSize maxSize : Nat) (totalRecords : Nat)
    (filters : QueryFilters) : Nat :=
  if totalRecords ≤ 100 then min 50 totalRecords
  else if totalRecords ≤ 500 then baseSize
  else if totalRecords ≤ 2000 then min (baseSize * 2) maxSize
  else maxSize

/-! ## Leader limit allocation (`QueryOrchestrator._compute_leader_allocations`,
facade.py lines 83-95) -/

/-- One `allocations[j] += 1` step. -/
def addOneAt : List Nat → Nat → List Nat
  | [], _ => []
  | x :: xs, 0 => (x + 1) :: xs
  | x :: xs, j + 1 => x :: addOneAt xs j

/-- The `while remainder > 0` loop: `allocations[idx % n] += 1` with `idx`
incrementing and `remainder` decrementing each round. -/
def distributeRemainder : List Nat → Nat → Nat → List Nat
  | alloc, 0, _ => alloc
  | alloc, r + 1, idx => distributeRemainder (addOneAt alloc (idx % alloc.length)) r (idx + 1)

/-- `_compute_leader_allocations(neighbor_count, total_limit)`.  All values
the Python code manipulates here are non-negative, so the computation is
carried out in `Nat`: `total_limit = max(1, int(total_limit))` makes the
total positive, and when `remainder = total_limit - base * neighbor_count`
is negative the `while remainder > 0` loop runs zero times, which is exactly
the behavior of the truncating `Nat` subtraction used below. -/
def computeLeaderAllocations (neighborCount : Nat) (totalLimit : Int) : List Nat :=
  if neighborCount = 0 then []
  else
    let t := (max 1 totalLimit).toNat
    let base := max 1 (t / neighborCount)
    let remainder := t - base * neighborCount
    distributeRemainder (List.replicate neighborCount base) remainder 0

/-! ## Filter parsing (`QueryOrchestrator._parse_filters`, facade.py
lines 246-252) -/

/-- `_parse_filters`: `none` models a payload that does not decode into a
JSON object (surfaced as `invalid_query:`); otherwise
`limit = filters.get("limit") or default_limit` (Python `or`: an absent *or
zero* limit falls back to the default) and
`filters["limit"] = max(1, min(int(limit), default_limit))`. -/
def parseFilters (queryParams : Option QueryFilters) (defaultLimit : Int) :
    Option QueryFilters :=
  match queryParams with
  | none => none
  | some f =>
    let raw : Int :=
      match pyTruthyInt f.limit with
      | some v => v
      | none => defaultLimit
    some { f with limit := some (max 1 (min raw defaultLimit)) }

/-! ## Result cache and admission controller

`src/overlay_core/result_cache.py` and `src/overlay_core/request_controller.py`
are imported by the facade but are not part of the source snapshot; the
definitions below are modelled from spec §4.4 and §4.3. -/

/-- Modelled from the spec: `ChunkedResult` of the absent
`src/overlay_core/result_cache.py`, per spec §3/§4.4 — uid, ordered records,
chunk size, creation time and producing-process metadata.  Chunk layout and
`get_chunk` mirror spec §4.4 (and agree with `QueryResult` in `src/node.py`). -/
structure ChunkedResult where
  uid : String
  records : List Row
  chunkSize : Nat
  createdAt : Nat
  metaProcess : String
  metaTeam : String
  metaFilters : QueryFilters
deriving Repr, DecidableEq

/-- Modelled from the spec: `totalRecords` is the stored record count. -/
def ChunkedResult.totalRecords (r : ChunkedResult) : Nat := r.records.length

/-- Modelled from the spec: `totalChunks = ⌈totalRecords/chunkSize⌉`
(`0` when `totalRecords = 0`). -/
def ChunkedResult.totalChunks (r : ChunkedResult) : Nat :=
  if r.records.isEmpty then 0 else (r.records.length + r.chunkSize - 1) / r.chunkSize

/-- Modelled from the spec: §4.4 `getChunk` — chunk `i` holds records
`[i*chunkSize, min((i+1)*chunkSize, totalRecords))`, `isLast` iff
`i = totalChunks - 1`, `none` for an out-of-range index. -/
def ChunkedResult.getChunk (r : ChunkedResult) (chunkIndex : Int) : Option Chunk :=
  if chunkIndex < 0 ∨ (r.totalChunks : Int) ≤ chunkIndex then none
  else
    let start := chunkIndex.toNat * r.chunkSize
    let stop := min (start + r.chunkSize) r.records.length
    some { data := (r.records.drop start).take (stop - start)
           chunkIndex := chunkIndex
           totalChunks := r.totalChunks
           isLast := chunkIndex == (r.totalChunks : Int) - 1 }

/-- Modelled from the spec: `ResultCache` of the absent
`src/overlay_core/result_cache.py` — a map uid → `ChunkedResult` with TTL,
modelled as an association list. -/
structure ResultCache where
  ttl : Nat
  entries : List (String × ChunkedResult)
deriving Repr, DecidableEq

/-- Underlying map lookup. -/
def ResultCache.lookup (c : ResultCache) (uid : String) : Option ChunkedResult :=
  (c.entries.find? (fun e => e.1 == uid)).map (fun e => e.2)

/-- Modelled from the spec: `store(result)` evicts any existing entry with
the same uid. -/
def ResultCache.store (c : ResultCache) (r : ChunkedResult) : ResultCache :=
  { c with entries := (r.uid, r) :: c.entries.filter (fun e => e.1 != r.uid) }

/-- Modelled from the spec: `get(uid)` returns nothing if absent or expired
(`now - createdAt ≥ ttl`); expiry sweeping is left to the background sweeper
the spec permits, so `get` itself does not mutate the map. -/
def ResultCache.get (c : ResultCache) (now : Nat) (uid : String) : Option ChunkedResult :=
  match c.lookup uid with
  | none => none
  | some r => if now - r.createdAt ≥ c.ttl then none else some r

/-- Modelled from the spec: `delete(uid)`. -/
def ResultCache.delete (c : ResultCache) (uid : String) : ResultCache :=
  { c with entries := c.entries.filter (fun e => e.1 != uid) }

/-- Modelled from the spec: the admission controller state of the absent
`src/overlay_core/request_controller.py`, per spec §3/§4.3 — overall active
count, per-team active counts (keyed by lower-cased team, matching the
fairness strategies in `strategies.py`), recorded uids, rejection counter,
and the configured capacities. -/
structure AdmissionController where
  fairness : FairnessKind
  maxActive : Nat
  perTeamLimit : Nat
  active : Nat
  activePerTeam : List (String × Nat)
  activeUids : List (String × Option String)
  rejections : Nat
deriving Repr, DecidableEq

/-- Increment a team's active counter. -/
def bumpTeam (m : List (String × Nat)) (team : Option String) : List (String × Nat) :=
  match team with
  | none => m
  | some t =>
    let key := strLower t
    if (m.find? (fun e => e.1 == key)).isSome then
      m.map (fun e => if e.1 == key then (e.1, e.2 + 1) else e)
    else
      m ++ [(key, 1)]

/-- Decrement a team's active counter. -/
def dropTeam (m : List (String × Nat)) (team : Option String) : List (String × Nat) :=
  match team with
  | none => m
  | some t =>
    let key := strLower t
    m.map (fun e => if e.1 == key then (e.1, e.2 - 1) else e)

/-- Modelled from the spec: `admit(uid, team?)` evaluates the fairness
policy; if accepted it increments the total and per-team counters and
records the uid, otherwise it bumps the rejection counter. -/
def AdmissionController.admit (a : AdmissionController) (uid : String)
    (team : Option String) : Bool × AdmissionController :=
  if fairnessShouldAdmit a.fairness team a.activePerTeam a.maxActive a.perTeamLimit then
    (true,
      { a with
        active := a.active + 1
        activePerTeam := bumpTeam a.activePerTeam team
        activeUids := (uid, team) :: a.activeUids })
  else
    (false, { a with rejections := a.rejections + 1 })

/-- Modelled from the spec: `release(uid)` decrements counters for the uid
if present; idempotent. -/
def AdmissionController.release (a : AdmissionController) (uid : String) :
    AdmissionController :=
  match a.activeUids.find? (fun e => e.1 == uid) with
  | none => a
  | some e =>
    { a with
      active := a.active - 1
      activePerTeam := dropTeam a.activePerTeam e.2
      activeUids := a.activeUids.filter (fun e2 => e2.1 != uid) }

/-! ## The query orchestrator (`src/overlay_core/facade.py`) -/

/-- `QueryRequest` (spec §6): `queryParams` carries the decoded filter
object, `none` standing for a payload that does not decode into a JSON
object.  `clientId` uses `""` for an absent id (Python falsiness). -/
structure QueryRequest where
  queryType : String
  queryParams : Option QueryFilters
  hops : List String
  clientId : String
deriving Repr, DecidableEq

/-- `QueryResponse` (spec §6). -/
structure QueryResponse where
  uid : String
  totalChunks : Nat
  totalRecords : Nat
  hops : List String
  status : String
deriving Repr, DecidableEq

/-- `ChunkResponse` (spec §6); `data` is the row list whose JSON
serialization the source returns. -/
structure ChunkResponse where
  uid : String
  chunkIndex : Int
  totalChunks : Nat
  data : List Row
  isLast : Bool
  status : String
deriving Repr, DecidableEq

/-- A neighbor-call oracle: the rows `_request_neighbor_records` obtains
from `client.query` plus `_drain_remote_chunks` for a given neighbor and
forwarded request.  The orchestrator theorems below hold for every oracle. -/
def RemoteOracle : Type := ProcessSpec → QueryRequest → List Row

/-- The per-process orchestrator state (`QueryOrchestrator.__init__`):
static configuration, the optional local datastore (its loaded records;
`none` when the process has no `date_bounds`), the result cache, the
admission controller, and the two round-robin rotation counters (the
facade's `_rr_index` and the `RoundRobinForwarding` instance's `_index`).
The chunking strategy is the default `FixedChunking(chunk_size)` and
forwarding is the default blocking `RoundRobinForwarding`; the async
variants are thread-based and outside this embedding (with the role-based
neighbor selection below, the strategy path is unreachable anyway). -/
structure Orchestrator where
  config : OverlayConfig
  process : ProcessSpec
  localRecords : Option (List Row)
  chunkSize : Nat
  defaultLimit : Int
  cache : ResultCache
  admission : AdmissionController
  rrIndex : Nat
  fwdIndex : Nat
deriving Repr, DecidableEq

/-- `QueryOrchestrator._select_forward_targets` (facade.py lines 317-335):
role-filtered neighbors, rotated by the facade's `_rr_index`, which is
incremented only when the filtered set is non-empty. -/
def Orchestrator.selectForwardTargets (o : Orchestrator) : List ProcessSpec × Nat :=
  let neighbors := o.config.neighborsOf o.process.id
  if neighbors.isEmpty then ([], o.rrIndex)
  else
    let filtered :=
      if o.process.role = "leader" then
        neighbors.filter (fun n => n.role == "team_leader")
      else if o.process.role = "team_leader" then
        neighbors.filter (fun n => n.team == o.process.team && n.role == "worker")
      else []
    if filtered.isEmpty then ([], o.rrIndex)
    else
      let start := o.rrIndex % filtered.length
      (filtered.drop start ++ filtered.take start, o.rrIndex + 1)

/-- `QueryOrchestrator._request_neighbor_records` (facade.py lines 337-374):
builds the forward filter (`limit = max(1, int(limit))`, `team` set only for
a truthy hint) and the forward request (`client_id = client_id or process
id`), then queries the neighbor and drains its chunks — the RPC outcome is
supplied by the oracle. -/
def Orchestrator.requestNeighborRecords (o : Orchestrator) (remote : RemoteOracle)
    (neighbor : ProcessSpec) (filters : QueryFilters) (hops : List String)
    (clientId : String) (limit : Int) (teamHint : Option String) : List Row :=
  let forwardFilters :=
    { filters with
      limit := some (max 1 limit)
      team :=
        match teamHint with
        | some t => if t = "" then filters.team else some t
        | none => filters.team }
  let forwardRequest : QueryRequest :=
    { queryType := "filter"
      queryParams := some forwardFilters
      hops := hops
      clientId := if clientId = "" then o.process.id else clientId }
  remote neighbor forwardRequest

/-- The neighbor loop of `RoundRobinForwarding.forward_blocking`
(strategies.py lines 82-94): skip neighbors already in `hops`, stop once
`remaining ≤ 0`, otherwise call and subtract the returned row count. -/
def forwardBlockingLoop (requestFn : ProcessSpec → Int → List Row)
    (hops : List String) : List ProcessSpec → Int → List Row
  | [], _ => []
  | n :: rest, rem =>
    if n.id ∈ hops then forwardBlockingLoop requestFn hops rest rem
    else if rem ≤ 0 then []
    else
      let rows := requestFn n rem
      rows ++ forwardBlockingLoop requestFn hops rest (rem - rows.length)

/-- `RoundRobinForwarding.forward_blocking` (strategies.py lines 64-95):
rotate by the strategy's own `_index`, then run the sequential loop.
Returns the rows and the updated strategy index. -/
def roundRobinForwardBlocking (requestFn : ProcessSpec → Int → List Row)
    (index : Nat) (neighbors : List ProcessSpec) (hops : List String)
    (remaining : Int) : List Row × Nat :=
  let start := if neighbors.isEmpty then 0 else index % neighbors.length
  let ordered := if neighbors.isEmpty then [] else neighbors.drop start ++ neighbors.take start
  (forwardBlockingLoop requestFn hops ordered remaining, index + 1)

/-- `QueryOrchestrator._collect_records` (facade.py lines 254-315): local
rows first (early-capped return when the limit is already met), then either
the leader/team-leader allocation fan-out or the forwarding strategy, with
the aggregate truncated to `filters["limit"]`.  Returns the rows and the
updated rotation counters. -/
def Orchestrator.collectRecords (o : Orchestrator) (remote : RemoteOracle)
    (filters : QueryFilters) (hops : List String) (clientId : String) :
    List Row × Nat × Nat :=
  let limit := filters.limit.getD o.defaultLimit
  let localRows :=
    match o.localRecords with
    | some records => dataStoreQuery records filters (some limit)
    | none => []
  let remaining := limit - localRows.length
  if o.localRecords.isSome ∧ remaining ≤ 0 then
    (localRows.take limit.toNat, o.rrIndex, o.fwdIndex)
  else
    let sel := o.selectForwardTargets
    let targets := sel.1
    if targets.isEmpty then (localRows.take limit.toNat, sel.2, o.fwdIndex)
    else
      let totalLimit := max 1 limit
      if o.process.role = "leader" ∨ o.process.role = "team_leader" then
        let allocations := computeLeaderAllocations targets.length totalLimit
        let teamHint : Option String :=
          if o.process.role = "leader" then none else some o.process.team
        let remoteRows :=
          (targets.zip allocations).foldl
            (fun acc na =>
              let hint : String :=
                match teamHint with
                | some t => if t = "" then na.1.team else t
                | none => na.1.team
              acc ++ o.requestNeighborRecords remote na.1 filters hops clientId
                (na.2 : Int) (some hint))
            []
        ((localRows ++ remoteRows).take limit.toNat, sel.2, o.fwdIndex)
      else
        let fwd := roundRobinForwardBlocking
          (fun n rem =>
            o.requestNeighborRecords remote n filters hops clientId rem none)
          o.fwdIndex targets hops remaining
        ((localRows ++ fwd.1).take limit.toNat, sel.2, fwd.2)

/-- `QueryOrchestrator.execute_query` (facade.py lines 97-178): loop check,
filter parsing, admission, record collection, chunk-size computation
(default `FixedChunking`), cache store, and the final `ready` response,
with `admission.release(uid)` in the `finally` arm of the happy path. -/
def Orchestrator.executeQuery (o : Orchestrator) (remote : RemoteOracle)
    (freshUid : String) (now : Nat) (req : QueryRequest) :
    QueryResponse × Orchestrator :=
  let hops := req.hops
  if o.process.id ∈ hops then
    ({ uid := "", totalChunks := 0, totalRecords := 0, hops := hops
       status := "loop_detected" }, o)
  else
    let hops := hops ++ [o.process.id]
    match parseFilters req.queryParams o.defaultLimit with
    | none =>
      ({ uid := "", totalChunks := 0, totalRecords := 0, hops := hops
         status := "invalid_query:query_params must decode into a JSON object." }, o)
    | some filters =>
      let uid := freshUid
      let targetTeam :=
        match filters.team with
        | some t => if t = "" then o.process.team else t
        | none => o.process.team
      let adm := o.admission.admit uid (some targetTeam)
      if adm.1 = false then
        ({ uid := "", totalChunks := 0, totalRecords := 0, hops := hops
           status := "rejected" }, { o with admission := adm.2 })
      else
        let collected := o.collectRecords remote filters hops req.clientId
        let records := collected.1
        let dynamicChunkSize := fixedComputeChunkSize o.chunkSize records.length filters
        let chunked : ChunkedResult :=
          { uid := uid
            records := records
            chunkSize := dynamicChunkSize
            createdAt := now
            metaProcess := o.process.id
            metaTeam := o.process.team
            metaFilters := filters }
        ({ uid := uid
           totalChunks := chunked.totalChunks
           totalRecords := chunked.totalRecords
           hops := hops
           status := "ready" },
         { o with
           cache := o.cache.store chunked
           admission := adm.2.release uid
           rrIndex := collected.2.1
           fwdIndex := collected.2.2 })

/-- `QueryOrchestrator.get_chunk` (facade.py lines 180-213): `not_found`
when the cache misses, `out_of_range` when the entry rejects the index,
otherwise a `success` response — deleting the cache entry first whenever the
produced chunk is the last one. -/
def Orchestrator.getChunk (o : Orchestrator) (now : Nat) (uid : String)
    (chunkIndex : Int) : ChunkResponse × Orchestrator :=
  match o.cache.get now uid with
  | none =>
    ({ uid := uid, chunkIndex := chunkIndex, totalChunks := 0, data := []
       isLast := true, status := "not_found" }, o)
  | some result =>
    match result.getChunk chunkIndex with
    | none =>
      ({ uid := uid, chunkIndex := chunkIndex, totalChunks := result.totalChunks
         data := [], isLast := true, status := "out_of_range" }, o)
    | some chunk =>
      let o2 := if chunk.isLast then { o with cache := o.cache.delete uid } else o
      ({ uid := uid, chunkIndex := chunk.chunkIndex, totalChunks := chunk.totalChunks
         data := chunk.data, isLast := chunk.isLast, status := "success" }, o2)

/-! ## Sample data used by concrete witnesses -/

/-- A concrete dataset row for witnesses. -/
def sampleRow (n : Int) : Row :=
  { latitude := 37, longitude := -122, timestamp := "t", parameter := "PM2.5"
    value := n, unitName := "UG/M3", aqi := 50, siteName := "site", date := "20200815" }

/-- A concrete three-row stored result with chunk size 2 (two chunks). -/
def sampleQR : QueryResult :=
  { uid := "u", data := [sampleRow 10, sampleRow 20, sampleRow 30], chunkSize := 2 }

/-! ## C2 — chunk layout of a stored result (`QueryResult`, src/node.py) -/

/-- **C2.** For every stored result with `totalRecords R` and positive
`chunkSize S`: `totalChunks = ⌈R/S⌉` (`0` when `R = 0`), chunk `i` holds
exactly the records at positions `[i*S, min((i+1)*S, R))` in stored order,
and a returned chunk's `isLast` flag is true iff its index is
`totalChunks - 1`. -/
theorem queryResult_chunk_layout (q : QueryResult) (hS : 1 ≤ q.chunkSize) :
    (q.totalRecords = 0 → q.totalChunks = 0) ∧
    q.totalChunks = (q.totalRecords + q.chunkSize - 1) / q.chunkSize ∧
    ∀ i : Nat, i < q.totalChunks →
      ∃ c, q.getChunk (i : Int) = some c ∧
        c.data = (q.data.drop (i * q.chunkSize)).take
          (min ((i + 1) * q.chunkSize) q.totalRecords - i * q.chunkSize) ∧
        (c.isLast = true ↔ i = q.totalChunks - 1) := by
  refine ⟨?_, ?_, ?_⟩
  · intro h
    have hd : q.data = [] := List.length_eq_zero.mp h
    simp [QueryResult.totalChunks, hd]
  · by_cases hd : q.data = []
    · rw [QueryResult.totalChunks, QueryResult.totalRecords, hd]
      simp
      exact (Nat.div_eq_of_lt (by omega)).symm
    · have hne : q.data.isEmpty = false := by
        cases hq : q.data with
        | nil => exact absurd hq hd
        | cons a l => rfl
      rw [QueryResult.totalChunks, QueryResult.totalRecords, hne]
      simp
  · intro i hi
    have hrange : ¬ ((i : Int) < 0 ∨ (q.totalChunks : Int) ≤ (i : Int)) := by
      push_neg
      exact ⟨Int.natCast_nonneg i, by exact_mod_cast hi⟩
    have hget : q.getChunk (i : Int) = some
        { data := (q.data.drop (((i : Int)).toNat * q.chunkSize)).take
            (min (((i : Int)).toNat * q.chunkSize + q.chunkSize) q.data.length -
              ((i : Int)).toNat * q.chunkSize)
          chunkIndex := (i : Int)
          totalChunks := q.totalChunks
          isLast := (i : Int) == (q.totalChunks : Int) - 1 } := by
      rw [QueryResult.getChunk, if_neg hrange]
    rw [hget]
    refine ⟨_, rfl, ?_, ?_⟩
    · simp only [QueryResult.totalRecords, Int.toNat_natCast]
      have hm : i * q.chunkSize + q.chunkSize = (i + 1) * q.chunkSize := by ring
      rw [hm]
    · simp only [beq_iff_eq]
      constructor
      · intro h
        have h1 : (i : Int) = (q.totalChunks : Int) - 1 := h
        omega
      · intro h
        have h1 : (i : Int) = (q.totalChunks : Int) - 1 := by omega
        exact h1

/-- Witness for C2 at a concrete three-row result with chunk size 2. -/
theorem queryResult_chunk_layout_witness :
    1 ≤ sampleQR.chunkSize ∧
    ((sampleQR.totalRecords = 0 → sampleQR.totalChunks = 0) ∧
      sampleQR.totalChunks = (sampleQR.totalRecords + sampleQR.chunkSize - 1) / sampleQR.chunkSize ∧
      ∀ i : Nat, i < sampleQR.totalChunks →
        ∃ c, sampleQR.getChunk (i : Int) = some c ∧
          c.data = (sampleQR.data.drop (i * sampleQR.chunkSize)).take
            (min ((i + 1) * sampleQR.chunkSize) sampleQR.totalRecords - i * sampleQR.chunkSize) ∧
          (c.isLast = true ↔ i = sampleQR.totalChunks - 1)) :=
  ⟨by decide, queryResult_chunk_layout sampleQR (by decide)⟩

/-! ## C7 — leader limit allocation -/

theorem addOneAt_length (l : List Nat) (j : Nat) : (addOneAt l j).length = l.length := by
  induction l generalizing j with
  | nil => rfl
  | cons x xs ih =>
    cases j with
    | zero => rfl
    | succ j => simp [addOneAt, ih]

theorem addOneAt_getD (l : List Nat) (j k : Nat) (hj : j < l.length) :
    (addOneAt l j).getD k 0 = l.getD k 0 + if k = j then 1 else 0 := by
  induction l generalizing j k with
  | nil => simp at hj
  | cons x xs ih =>
    cases j with
    | zero =>
      cases k with
      | zero => simp [addOneAt]
      | succ k => simp [addOneAt]
    | succ j =>
      cases k with
      | zero => simp [addOneAt]
      | succ k =>
        have hj2 : j < xs.length := by simpa using hj
        have hih := ih j k hj2
        simp only [addOneAt, List.getD_cons_succ]
        simpa using hih

theorem addOneAt_sum (l : List Nat) (j : Nat) (hj : j < l.length) :
    (addOneAt l j).sum = l.sum + 1 := by
  induction l generalizing j with
  | nil => simp at hj
  | cons x xs ih =>
    cases j with
    | zero => simp [addOneAt]; omega
    | succ j =>
      have hj2 : j < xs.length := by simpa using hj
      simp [addOneAt, ih j hj2]
      omega

theorem addOneAt_lower (l : List Nat) (j c : Nat) (h : ∀ x ∈ l, c ≤ x) :
    ∀ x ∈ addOneAt l j, c ≤ x := by
  induction l generalizing j with
  | nil => intro x hx; simp [addOneAt] at hx
  | cons y ys ih =>
    cases j with
    | zero =>
      intro x hx
      rcases List.mem_cons.mp hx with h1 | h1
      · have := h y (List.mem_cons_self y ys)
        omega
      · exact h x (List.mem_cons.mpr (Or.inr h1))
    | succ j =>
      intro x hx
      rcases List.mem_cons.mp hx with h1 | h1
      · exact h x (h1 ▸ List.mem_cons_self y ys)
      · exact ih j (fun z hz => h z (List.mem_cons.mpr (Or.inr hz))) x h1

theorem distributeRemainder_length (l : List Nat) (r i : Nat) :
    (distributeRemainder l r i).length = l.length := by
  induction r generalizing l i with
  | zero => rfl
  | succ r ih =>
    simp [distributeRemainder, ih, addOneAt_length]

theorem distributeRemainder_sum (l : List Nat) (r i : Nat) (hl : 0 < l.length) :
    (distributeRemainder l r i).sum = l.sum + r := by
  induction r generalizing l i with
  | zero => rfl
  | succ r ih =>
    have hm : i % l.length < l.length := Nat.mod_lt i hl
    have hl2 : 0 < (addOneAt l (i % l.length)).length := by
      rw [addOneAt_length]; exact hl
    rw [distributeRemainder, ih _ _ hl2, addOneAt_sum l _ hm]
    omega

theorem distributeRemainder_lower (l : List Nat) (r i c : Nat) (h : ∀ x ∈ l, c ≤ x) :
    ∀ x ∈ distributeRemainder l r i, c ≤ x := by
  induction r generalizing l i with
  | zero => exact h
  | succ r ih =>
    intro x hx
    exact ih _ (i + 1) (addOneAt_lower l _ c h) x hx

theorem distributeRemainder_getD (l : List Nat) (r i : Nat) (h : i + r ≤ l.length)
    (k : Nat) :
    (distributeRemainder l r i).getD k 0 =
      l.getD k 0 + if i ≤ k ∧ k < i + r then 1 else 0 := by
  induction r generalizing l i with
  | zero =>
    rw [if_neg (by omega : ¬ (i ≤ k ∧ k < i + 0))]
    simp [distributeRemainder]
  | succ r ih =>
    have hi : i < l.length := by omega
    have him : i % l.length = i := Nat.mod_eq_of_lt hi
    have h2 : (i + 1) + r ≤ (addOneAt l (i % l.length)).length := by
      rw [addOneAt_length]; omega
    rw [distributeRemainder, ih _ _ h2, him, addOneAt_getD l i k hi]
    by_cases hk : k = i
    · subst hk
      simp
    · by_cases hk2 : i + 1 ≤ k ∧ k < i + 1 + r
      · rw [if_pos hk2, if_neg hk, if_pos (by omega)]
      · rw [if_neg hk2, if_neg hk, if_neg (by omega)]

theorem getD_replicate (n b k : Nat) :
    (List.replicate n b).getD k 0 = if k < n then b else 0 := by
  induction n generalizing k with
  | zero => simp
  | succ n ih =>
    cases k with
    | zero => simp [List.replicate_succ]
    | succ k =>
      have hih := ih k
      simp only [List.replicate_succ, List.getD_cons_succ]
      rw [hih]
      by_cases hk : k < n
      · rw [if_pos hk, if_pos (by omega)]
      · rw [if_neg hk, if_neg (by omega)]

theorem sum_replicate_nat (n b : Nat) : (List.replicate n b).sum = n * b := by
  induction n with
  | zero => simp
  | succ n ih => simp [List.replicate_succ, ih]; ring

/-- **C7 (counterexample).** With remaining limit `L = 1` and `n = 2`
neighbors, the allocations are `[1, 1]`: they sum to `2`, not to `L = 1` as
the claim states. -/
theorem computeLeaderAllocations_sum_cex :
    computeLeaderAllocations 2 1 = [1, 1] ∧ (computeLeaderAllocations 2 1).sum ≠ 1 := by
  decide

/-- **C7 (amended).** For remaining limit `L ≥ 1` and `n ≥ 1` neighbors the
function returns exactly `n` allocations: each is `base = max(1, ⌊L/n⌋)`
plus a round-robin `+1` for the first `L - base·n` positions (no increments
when that remainder is negative), every neighbor receives at least `1`, and
the allocations sum to `max L n` — that is, to `L` whenever `L ≥ n`, and to
`n` (one each) when `L < n`. -/
theorem computeLeaderAllocations_amended (n : Nat) (L : Int) (hn : 1 ≤ n) (hL : 1 ≤ L) :
    (computeLeaderAllocations n L).length = n ∧
    (∀ a ∈ computeLeaderAllocations n L, 1 ≤ a) ∧
    (∀ k : Nat, (computeLeaderAllocations n L).getD k 0 =
      if k < n then
        max 1 (L.toNat / n) + (if k < L.toNat - max 1 (L.toNat / n) * n then 1 else 0)
      else 0) ∧
    ((computeLeaderAllocations n L).sum : Int) = max L (n : Int) := by
  have hn0 : n ≠ 0 := by omega
  have hmaxL : max 1 L = L := by omega
  have ht : (max 1 L).toNat = L.toNat := by rw [hmaxL]
  set t := L.toNat with htdef
  have ht1 : 1 ≤ t := by omega
  set base := max 1 (t / n) with hbase
  set rem := t - base * n with hrem
  have hexp : computeLeaderAllocations n L =
      distributeRemainder (List.replicate n base) rem 0 := by
    rw [computeLeaderAllocations, if_neg hn0, ht]
  have hremlt : rem < n := by
    by_cases hcase : t < n
    · have h0 : t / n = 0 := Nat.div_eq_of_lt hcase
      have hb1 : base = 1 := by rw [hbase, h0]; omega
      omega
    · push_neg at hcase
      have hb : base = t / n := by
        have : 1 ≤ t / n := (Nat.one_le_div_iff (by omega)).mpr hcase
        omega
      have hdm := Nat.div_add_mod t n
      have hmod : t % n < n := Nat.mod_lt t (by omega)
      have hbn : base * n = n * (t / n) := by rw [hb]; ring
      omega
  have hlen : (computeLeaderAllocations n L).length = n := by
    rw [hexp, distributeRemainder_length, List.length_replicate]
  refine ⟨hlen, ?_, ?_, ?_⟩
  · intro a ha
    rw [hexp] at ha
    refine distributeRemainder_lower _ rem 0 1 ?_ a ha
    intro x hx
    have := List.eq_of_mem_replicate hx
    omega
  · intro k
    rw [hexp, distributeRemainder_getD _ rem 0 (by simp; omega) k, getD_replicate]
    by_cases hk : k < n
    · rw [if_pos hk, if_pos hk,
        if_congr (show (0 ≤ k ∧ k < 0 + rem) ↔ k < rem by omega) rfl rfl]
    · rw [if_neg hk, if_neg hk, if_neg (by omega : ¬ (0 ≤ k ∧ k < 0 + rem))]
  · rw [hexp, distributeRemainder_sum _ rem 0 (by simp; omega), sum_replicate_nat]
    by_cases hcase : t < n
    · have h0 : t / n = 0 := Nat.div_eq_of_lt hcase
      have hb1 : base = 1 := by rw [hbase, h0]; omega
      have hb1n : base * n = n := by rw [hb1]; ring
      have hr0 : rem = 0 := by omega
      rw [hb1, hr0]
      omega
    · push_neg at hcase
      have hb : base = t / n := by
        have : 1 ≤ t / n := (Nat.one_le_div_iff (by omega)).mpr hcase
        omega
      have hdm := Nat.div_add_mod t n
      have hmod : t % n < n := Nat.mod_lt t (by omega)
      have hbn : base * n = n * (t / n) := by rw [hb]; ring
      have hnb : n * base = n * (t / n) := by rw [hb]
      omega

/-- Witness for the amended C7 at `n = 3`, `L = 100`. -/
theorem computeLeaderAllocations_amended_witness :
    (1 ≤ 3 ∧ 1 ≤ (100 : Int)) ∧
    ((computeLeaderAllocations 3 100).length = 3 ∧
      (∀ a ∈ computeLeaderAllocations 3 100, 1 ≤ a) ∧
      (∀ k : Nat, (computeLeaderAllocations 3 100).getD k 0 =
        if k < 3 then
          max 1 ((100 : Int).toNat / 3) +
            (if k < (100 : Int).toNat - max 1 ((100 : Int).toNat / 3) * 3 then 1 else 0)
        else 0) ∧
      ((computeLeaderAllocations 3 100).sum : Int) = max 100 ((3 : Nat) : Int)) :=
  ⟨⟨by decide, by decide⟩, computeLeaderAllocations_amended 3 100 (by decide) (by decide)⟩

/-! ## C6 — effective limit computed by `_parse_filters` -/

/-- **C6 (counterexample).** A supplied limit of `0` is not clamped to `1`:
Python's `filters.get("limit") or self._default_limit` treats `0` as absent,
so with `default_limit = 2000` the effective limit is `2000`. -/
theorem parseFilters_zero_limit_cex :
    (parseFilters (some { limit := some 0 }) 2000).map (fun f => f.limit) =
      some (some 2000) ∧
    (parseFilters (some { limit := some 0 }) 2000).map (fun f => f.limit) ≠
      some (some 1) := by
  decide

/-- **C6 (amended).** For every parsed filter object the effective limit is
`default_limit` when the request supplies no limit, and also when it
supplies a limit of `0` (Python falsiness treats `0` as absent); any other
supplied limit is clamped to `[1, default_limit]`.  The effective limit
always lies in `[1, default_limit]` when `default_limit ≥ 1`. -/
theorem parseFilters_limit_amended (raw : QueryFilters) (dflt : Int) (hd : 1 ≤ dflt) :
    ∃ l : Int,
      (parseFilters (some raw) dflt).map (fun f => f.limit) = some (some l) ∧
      1 ≤ l ∧ l ≤ dflt ∧
      (raw.limit = none → l = dflt) ∧
      (raw.limit = some 0 → l = dflt) ∧
      (∀ v : Int, raw.limit = some v → v ≠ 0 → l = max 1 (min v dflt)) := by
  rcases hl : raw.limit with _ | v
  · refine ⟨max 1 (min dflt dflt), ?_, by omega, by omega, ?_, ?_, ?_⟩
    · simp [parseFilters, pyTruthyInt, hl]
    · intro _; omega
    · intro h; exact Option.noConfusion h
    · intro w hw _; exact Option.noConfusion hw
  · by_cases hv0 : v = 0
    · subst hv0
      refine ⟨max 1 (min dflt dflt), ?_, by omega, by omega, ?_, ?_, ?_⟩
      · simp [parseFilters, pyTruthyInt, hl]
      · intro h; exact Option.noConfusion h
      · intro _; omega
      · intro w hw hw0
        injection hw with h2
        exact absurd h2.symm hw0
    · refine ⟨max 1 (min v dflt), ?_, by omega, by omega, ?_, ?_, ?_⟩
      · simp [parseFilters, pyTruthyInt, hl, hv0]
      · intro h; exact Option.noConfusion h
      · intro h
        injection h with h2
        exact absurd h2 hv0
      · intro w hw _
        injection hw with h2
        rw [h2]

/-- Witness for the amended C6 at a filter supplying limit `5000` with
default `2000`. -/
theorem parseFilters_limit_amended_witness :
    (1 ≤ (2000 : Int)) ∧
    ∃ l : Int,
      (parseFilters (some { limit := some 5000 }) 2000).map (fun f => f.limit) =
        some (some l) ∧
      1 ≤ l ∧ l ≤ 2000 ∧
      ((QueryFilters.limit { limit := some 5000 } : Option Int) = none → l = 2000) ∧
      ((QueryFilters.limit { limit := some 5000 } : Option Int) = some 0 → l = 2000) ∧
      (∀ v : Int, (QueryFilters.limit { limit := some 5000 } : Option Int) = some v →
        v ≠ 0 → l = max 1 (min v 2000)) :=
  ⟨by decide, parseFilters_limit_amended { limit := some 5000 } 2000 (by decide)⟩

/-! ## C9 — configuration loading does not validate neighbor ids -/

/-- A one-process configuration whose only process lists an undefined
neighbor id `"ghost"`. -/
def ghostProcs : List (String × ProcessSpec) :=
  [("a", { id := "a", role := "leader", team := "green", host := "h", port := 1
           neighbors := ["ghost"] })]

/-- **C9 (counterexample).** A configuration containing an unknown neighbor
id loads successfully (it is not rejected), and the unknown neighbor is
later silently ignored by neighbor lookup. -/
theorem overlayConfig_unknown_neighbor_cex :
    OverlayConfig.load ghostProcs = .ok ⟨ghostProcs⟩ ∧
    (OverlayConfig.mk ghostProcs).neighborsOf "a" = [] :=
  ⟨rfl, by decide⟩

/-- **C9 (amended).** Loading performs no neighbor-id validation: every
non-empty process map is accepted as-is, and `neighbors_of` silently drops
neighbor ids with no process definition — every neighbor it returns is the
definition of some listed neighbor id. -/
theorem overlayConfig_load_amended (procs : List (String × ProcessSpec))
    (h : procs ≠ []) :
    OverlayConfig.load procs = .ok ⟨procs⟩ ∧
    (∀ pid : String, ∀ q ∈ (OverlayConfig.mk procs).neighborsOf pid,
      ∃ p : ProcessSpec, (OverlayConfig.mk procs).getProc pid = some p ∧
        ∃ nid ∈ p.neighbors, (OverlayConfig.mk procs).getProc nid = some q) := by
  constructor
  · rw [OverlayConfig.load, if_neg (by simpa using h)]
  · intro pid q hq
    rw [OverlayConfig.neighborsOf] at hq
    rcases hp : (OverlayConfig.mk procs).getProc pid with _ | p
    · rw [hp] at hq
      simp at hq
    · rw [hp] at hq
      rcases List.mem_filterMap.mp hq with ⟨nid, hnid, hfind⟩
      exact ⟨p, rfl, nid, hnid, hfind⟩

/-- Witness for the amended C9 on the `ghostProcs` configuration. -/
theorem overlayConfig_load_amended_witness :
    ghostProcs ≠ [] ∧
    (OverlayConfig.load ghostProcs = .ok ⟨ghostProcs⟩ ∧
      (∀ pid : String, ∀ q ∈ (OverlayConfig.mk ghostProcs).neighborsOf pid,
        ∃ p : ProcessSpec, (OverlayConfig.mk ghostProcs).getProc pid = some p ∧
          ∃ nid ∈ p.neighbors, (OverlayConfig.mk ghostProcs).getProc nid = some q)) :=
  ⟨by decide, overlayConfig_load_amended ghostProcs (by decide)⟩

/-! ## C8 — weighted fairness versus strict fairness -/

theorem strictShouldAdmit_some (t : String) (m : List (String × Nat))
    (maxA ptl : Nat) :
    strictShouldAdmit (some t) m maxA ptl =
      if sumActive m ≥ maxA then false
      else if t = "" then true
      else if lookupCount m (strLower t) ≥ ptl then false
      else true := rfl

theorem weightedShouldAdmit_some (t : String) (m : List (String × Nat))
    (maxA ptl : Nat) :
    weightedShouldAdmit (some t) m maxA ptl =
      if sumActive m ≥ maxA then false
      else if t = "" then true
      else if lookupCount m (strLower t) ≥ ptl ∧
          ((otherTeamsTotal m (strLower t) : ℚ) > (ptl : ℚ) * (4 / 5)) then false
      else true := rfl

/-- **C8 (counterexample).** With `perTeamLimit = 5`, team `green` at its
limit (5 active) and the other team at exactly `0.8 · 5 = 4`, the claim says
the request is not admitted (`4 < 4` fails), but `WeightedFairness`
admits it: the code rejects only when the other teams are strictly above
`0.8 · perTeamLimit`. -/
theorem weightedFairness_boundary_cex :
    weightedShouldAdmit (some "green") [("green", 5), ("pink", 4)] 100 5 = true ∧
    5 ≤ lookupCount [("green", 5), ("pink", 4)] (strLower "green") ∧
    sumActive [("green", 5), ("pink", 4)] < 100 ∧
    ¬ ((otherTeamsTotal [("green", 5), ("pink", 4)] (strLower "green") : ℚ) <
        ((5 : Nat) : ℚ) * (4 / 5)) := by
  have h4 : otherTeamsTotal [("green", 5), ("pink", 4)] (strLower "green") = 4 := by
    decide
  have hQfalse : ¬ ((otherTeamsTotal [("green", 5), ("pink", 4)] (strLower "green") : ℚ) >
      ((5 : Nat) : ℚ) * (4 / 5)) := by
    rw [h4]; push_cast; norm_num
  refine ⟨?_, by decide, by decide, ?_⟩
  · rw [weightedShouldAdmit_some, if_neg (by decide), if_neg (by decide),
      if_neg (fun h => hQfalse h.2)]
  · rw [h4]; push_cast; norm_num

/-- **C8 (amended).** Weighted fairness behaves like Strict fairness except
that a request whose (non-empty) team is at or over `perTeamLimit` is still
admitted exactly when the sum of the other teams' active counts is **at
most** `0.8 · perTeamLimit` (and the total active count is below
`maxActive`); for teams under `perTeamLimit` it decides exactly as Strict
does. -/
theorem weightedFairness_amended (t : String) (ht : t ≠ "")
    (m : List (String × Nat)) (maxA ptl : Nat) :
    (lookupCount m (strLower t) < ptl →
      weightedShouldAdmit (some t) m maxA ptl = strictShouldAdmit (some t) m maxA ptl) ∧
    (ptl ≤ lookupCount m (strLower t) →
      (weightedShouldAdmit (some t) m maxA ptl = true ↔
        sumActive m < maxA ∧
          (otherTeamsTotal m (strLower t) : ℚ) ≤ (ptl : ℚ) * (4 / 5))) := by
  constructor
  · intro hlt
    by_cases htot : sumActive m ≥ maxA
    · rw [weightedShouldAdmit_some, strictShouldAdmit_some, if_pos htot, if_pos htot]
    · rw [weightedShouldAdmit_some, strictShouldAdmit_some, if_neg htot, if_neg htot,
        if_neg ht, if_neg ht, if_neg (fun h => absurd h.1 (by omega)),
        if_neg (show ¬ lookupCount m (strLower t) ≥ ptl by omega)]
  · intro hge
    by_cases htot : sumActive m ≥ maxA
    · rw [weightedShouldAdmit_some, if_pos htot]
      constructor
      · intro h; exact absurd h (by simp)
      · rintro ⟨h1, _⟩; exact absurd h1 (by omega)
    · rw [weightedShouldAdmit_some, if_neg htot, if_neg ht]
      by_cases hQ : (otherTeamsTotal m (strLower t) : ℚ) > (ptl : ℚ) * (4 / 5)
      · rw [if_pos ⟨hge, hQ⟩]
        constructor
        · intro h; exact absurd h (by simp)
        · rintro ⟨_, hle⟩; exact absurd hQ (not_lt.mpr hle)
      · rw [if_neg (fun h => hQ h.2)]
        exact ⟨fun _ => ⟨by omega, not_lt.mp hQ⟩, fun _ => rfl⟩

/-- Witness for the amended C8 at team `green`, counts
`{green ↦ 5, pink ↦ 4}`, `maxActive = 100`, `perTeamLimit = 5`. -/
theorem weightedFairness_amended_witness :
    "green" ≠ "" ∧
    ((lookupCount [("green", 5), ("pink", 4)] (strLower "green") < 5 →
      weightedShouldAdmit (some "green") [("green", 5), ("pink", 4)] 100 5 =
        strictShouldAdmit (some "green") [("green", 5), ("pink", 4)] 100 5) ∧
    (5 ≤ lookupCount [("green", 5), ("pink", 4)] (strLower "green") →
      (weightedShouldAdmit (some "green") [("green", 5), ("pink", 4)] 100 5 = true ↔
        sumActive [("green", 5), ("pink", 4)] < 100 ∧
          (otherTeamsTotal [("green", 5), ("pink", 4)] (strLower "green") : ℚ) ≤
            ((5 : Nat) : ℚ) * (4 / 5)))) :=
  ⟨by decide, weightedFairness_amended "green" (by decide) [("green", 5), ("pink", 4)] 100 5⟩

/-! ## C5 — out-of-range GetChunk leaves the cache untouched -/

/-- **C5.** For every uid whose entry `r` the cache returns and every chunk
index outside `[0, totalChunks)`, `get_chunk` answers `out_of_range` and
returns the orchestrator state completely unchanged — the entry for that
uid and every other cache entry are exactly as before the call. -/
theorem getChunk_out_of_range_frame (o : Orchestrator) (now : Nat) (uid : String)
    (idx : Int) (r : ChunkedResult) (hget : o.cache.get now uid = some r)
    (hidx : idx < 0 ∨ (r.totalChunks : Int) ≤ idx) :
    o.getChunk now uid idx =
      ({ uid := uid, chunkIndex := idx, totalChunks := r.totalChunks, data := []
         isLast := true, status := "out_of_range" }, o) := by
  have hnone : r.getChunk idx = none := by
    rw [ChunkedResult.getChunk, if_pos hidx]
  unfold Orchestrator.getChunk
  simp only [hget, hnone]

/-- Concrete one-entry cache state for the C5 and C4 witnesses: the entry
holds one record in chunks of one. -/
def cacheOrch : Orchestrator :=
  { config := ⟨[("w", { id := "w", role := "worker", team := "green", host := "h"
                        port := 1, neighbors := [] })]⟩
    process := { id := "w", role := "worker", team := "green", host := "h"
                 port := 1, neighbors := [] }
    localRecords := none
    chunkSize := 100
    defaultLimit := 2000
    cache := { ttl := 300
               entries := [("u", { uid := "u", records := [sampleRow 10]
                                   chunkSize := 1, createdAt := 0
                                   metaProcess := "w", metaTeam := "green"
                                   metaFilters := {} })] }
    admission := { fairness := .strict, maxActive := 10, perTeamLimit := 5
                   active := 0, activePerTeam := [], activeUids := [], rejections := 0 }
    rrIndex := 0
    fwdIndex := 0 }

/-- The entry stored in `cacheOrch`. -/
def cacheEntry : ChunkedResult :=
  { uid := "u", records := [sampleRow 10], chunkSize := 1, createdAt := 0
    metaProcess := "w", metaTeam := "green", metaFilters := {} }

/-- Witness for C5: index `5` is out of range for the one-chunk entry. -/
theorem getChunk_out_of_range_frame_witness :
    (cacheOrch.cache.get 0 "u" = some cacheEntry ∧
      ((5 : Int) < 0 ∨ (cacheEntry.totalChunks : Int) ≤ (5 : Int))) ∧
    cacheOrch.getChunk 0 "u" 5 =
      ({ uid := "u", chunkIndex := 5, totalChunks := cacheEntry.totalChunks, data := []
         isLast := true, status := "out_of_range" }, cacheOrch) :=
  ⟨⟨by decide, by decide⟩,
    getChunk_out_of_range_frame cacheOrch 0 "u" 5 cacheEntry (by decide) (by decide)⟩

/-! ## C4 — the last chunk pull deletes the cache entry -/

theorem lookup_delete (c : ResultCache) (uid : String) :
    (c.delete uid).lookup uid = none := by
  have hfind : (c.entries.filter (fun e => e.1 != uid)).find?
      (fun e => e.1 == uid) = none := by
    rw [List.find?_eq_none]
    intro e he
    have h2 := (List.mem_filter.mp he).2
    simpa using h2
  simp [ResultCache.lookup, ResultCache.delete, hfind]

theorem get_delete (c : ResultCache) (now : Nat) (uid : String) :
    (c.delete uid).get now uid = none := by
  rw [ResultCache.get, lookup_delete]

/-- **C4.** Whenever `get_chunk` produces a successful chunk whose `isLast`
flag is true, the cache entry for that uid is deleted in the same call:
afterwards the uid no longer resolves in the cache, and every subsequent
`get_chunk` for it (any index, any time) answers `not_found`. -/
theorem getChunk_last_deletes_entry (o : Orchestrator) (now : Nat) (uid : String)
    (idx : Int) (resp : ChunkResponse) (o2 : Orchestrator)
    (hrun : o.getChunk now uid idx = (resp, o2))
    (hs : resp.status = "success") (hl : resp.isLast = true) :
    o2.cache.lookup uid = none ∧
    ∀ (now2 : Nat) (idx2 : Int), ((o2.getChunk now2 uid idx2).1).status = "not_found" := by
  rcases hcg : o.cache.get now uid with _ | r
  · unfold Orchestrator.getChunk at hrun
    simp only [hcg] at hrun
    rw [Prod.mk.injEq] at hrun
    obtain ⟨hA, hB⟩ := hrun
    rw [← hA] at hs
    simp at hs
  · rcases hch : r.getChunk idx with _ | chunk
    · unfold Orchestrator.getChunk at hrun
      simp only [hcg, hch] at hrun
      rw [Prod.mk.injEq] at hrun
      obtain ⟨hA, hB⟩ := hrun
      rw [← hA] at hs
      simp at hs
    · unfold Orchestrator.getChunk at hrun
      simp only [hcg, hch] at hrun
      rw [Prod.mk.injEq] at hrun
      obtain ⟨hA, hB⟩ := hrun
      have hlast : chunk.isLast = true := by
        rw [← hA] at hl
        exact hl
      rw [if_pos hlast] at hB
      have hdel : o2.cache = o.cache.delete uid := by
        rw [← hB]
      constructor
      · rw [hdel]
        exact lookup_delete o.cache uid
      · intro now2 idx2
        have hg2 : o2.cache.get now2 uid = none := by
          rw [hdel]
          exact get_delete o.cache now2 uid
        unfold Orchestrator.getChunk
        simp only [hg2]

/-- The successful last-chunk response of the C4 witness call. -/
def lastChunkResp : ChunkResponse :=
  { uid := "u", chunkIndex := 0, totalChunks := 1, data := [sampleRow 10]
    isLast := true, status := "success" }

/-- The orchestrator state after the C4 witness call: the entry is gone. -/
def cacheOrchAfter : Orchestrator :=
  { cacheOrch with cache := { ttl := 300, entries := [] } }

/-- Witness for C4: pulling chunk `0` of the single-chunk entry in
`cacheOrch` succeeds with `isLast = true`, and afterwards the uid is gone. -/
theorem getChunk_last_deletes_entry_witness :
    (cacheOrch.getChunk 0 "u" 0 = (lastChunkResp, cacheOrchAfter) ∧
      lastChunkResp.status = "success" ∧ lastChunkResp.isLast = true) ∧
    (cacheOrchAfter.cache.lookup "u" = none ∧
      ∀ (now2 : Nat) (idx2 : Int),
        ((cacheOrchAfter.getChunk now2 "u" idx2).1).status = "not_found") :=
  ⟨⟨by decide, by decide, by decide⟩,
    getChunk_last_deletes_entry cacheOrch 0 "u" 0 lastChunkResp cacheOrchAfter
      (by decide) (by decide) (by decide)⟩

/-! ## C1 — loop detection is side-effect free -/

/-- **C1.** When a Query arrives whose hops already contain the receiving
process's own id, `execute_query` answers `loop_detected` immediately and
the call has no side effects: the whole orchestrator state — admission
counters, cache, rotation counters — is returned unchanged, and the
response carries no uid. -/
theorem executeQuery_loop_detected_no_side_effects (o : Orchestrator)
    (remote : RemoteOracle) (freshUid : String) (now : Nat) (req : QueryRequest)
    (h : o.process.id ∈ req.hops) :
    o.executeQuery remote freshUid now req =
      ({ uid := "", totalChunks := 0, totalRecords := 0, hops := req.hops
         status := "loop_detected" }, o) := by
  simp only [Orchestrator.executeQuery]
  rw [if_pos h]

/-- Witness for C1: the `cacheOrch` process (`id = "w"`) receives a query
whose hops are `["w"]`. -/
theorem executeQuery_loop_detected_witness :
    cacheOrch.process.id ∈ ["w"] ∧
    cacheOrch.executeQuery (fun _ _ => []) "u1" 0
        { queryType := "filter", queryParams := some {}, hops := ["w"], clientId := "c" } =
      ({ uid := "", totalChunks := 0, totalRecords := 0, hops := ["w"]
         status := "loop_detected" }, cacheOrch) :=
  ⟨by decide,
    executeQuery_loop_detected_no_side_effects cacheOrch (fun _ _ => []) "u1" 0
      { queryType := "filter", queryParams := some {}, hops := ["w"], clientId := "c" }
      (by decide)⟩

/-! ## C10 — failed queries carry no chunk-pull handle -/

/-- **C10.** Every Query that terminates with a non-`ready` status
(`loop_detected`, `invalid_query:...`, or `rejected`) carries an empty uid
and zero `totalChunks`/`totalRecords`, so a failed query never hands the
client a chunk-pull handle. -/
theorem executeQuery_failure_empty_handle (o : Orchestrator)
    (remote : RemoteOracle) (freshUid : String) (now : Nat) (req : QueryRequest)
    (resp : QueryResponse) (o2 : Orchestrator)
    (hrun : o.executeQuery remote freshUid now req = (resp, o2))
    (hst : resp.status ≠ "ready") :
    resp.uid = "" ∧ resp.totalChunks = 0 ∧ resp.totalRecords = 0 := by
  simp only [Orchestrator.executeQuery] at hrun
  by_cases hloop : o.process.id ∈ req.hops
  · rw [if_pos hloop, Prod.mk.injEq] at hrun
    obtain ⟨hA, _⟩ := hrun
    rw [← hA]
    exact ⟨rfl, rfl, rfl⟩
  · rw [if_neg hloop] at hrun
    rcases hp : parseFilters req.queryParams o.defaultLimit with _ | f
    · simp only [hp] at hrun
      rw [Prod.mk.injEq] at hrun
      obtain ⟨hA, _⟩ := hrun
      rw [← hA]
      exact ⟨rfl, rfl, rfl⟩
    · simp only [hp] at hrun
      split at hrun
      · rw [Prod.mk.injEq] at hrun
        obtain ⟨hA, _⟩ := hrun
        rw [← hA]
        exact ⟨rfl, rfl, rfl⟩
      · rw [Prod.mk.injEq] at hrun
        obtain ⟨hA, _⟩ := hrun
        rw [← hA] at hst
        exact absurd rfl hst

/-- Witness for C10: the loop-detected call of `executeQuery_loop_detected_witness`
has a non-`ready` status, hence an empty handle. -/
theorem executeQuery_failure_empty_handle_witness :
    (cacheOrch.executeQuery (fun _ _ => []) "u1" 0
        { queryType := "filter", queryParams := some {}, hops := ["w"], clientId := "c" } =
      ({ uid := "", totalChunks := 0, totalRecords := 0, hops := ["w"]
         status := "loop_detected" }, cacheOrch) ∧
      ({ uid := "", totalChunks := 0, totalRecords := 0, hops := ["w"]
         status := "loop_detected" } : QueryResponse).status ≠ "ready") ∧
    (({ uid := "", totalChunks := 0, totalRecords := 0, hops := ["w"]
        status := "loop_detected" } : QueryResponse).uid = "" ∧
      ({ uid := "", totalChunks := 0, totalRecords := 0, hops := ["w"]
         status := "loop_detected" } : QueryResponse).totalChunks = 0 ∧
      ({ uid := "", totalChunks := 0, totalRecords := 0, hops := ["w"]
         status := "loop_detected" } : QueryResponse).totalRecords = 0) :=
  ⟨⟨by decide, by decide⟩,
    executeQuery_failure_empty_handle cacheOrch (fun _ _ => []) "u1" 0
      { queryType := "filter", queryParams := some {}, hops := ["w"], clientId := "c" }
      { uid := "", totalChunks := 0, totalRecords := 0, hops := ["w"]
        status := "loop_detected" }
      cacheOrch (by decide) (by decide)⟩

/-! ## C3 — an accepted query stores and reports at most `filter.limit` rows -/

theorem collectRecords_length_le (o : Orchestrator) (remote : RemoteOracle)
    (f : QueryFilters) (hops : List String) (clientId : String) :
    ((o.collectRecords remote f hops clientId).1).length ≤
      (f.limit.getD o.defaultLimit).toNat := by
  simp only [Orchestrator.collectRecords]
  repeat' split
  all_goals simp [List.length_take]

theorem parseFilters_limit_isSome (qp : Option QueryFilters) (d : Int)
    (f : QueryFilters) (h : parseFilters qp d = some f) :
    ∃ l : Int, f.limit = some l ∧ 1 ≤ l := by
  rcases qp with _ | raw
  · simp [parseFilters] at h
  · simp only [parseFilters] at h
    injection h with h2
    subst h2
    exact ⟨_, rfl, le_max_left 1 _⟩

theorem lookup_store (c : ResultCache) (r : ChunkedResult) :
    (c.store r).lookup r.uid = some r := by
  simp [ResultCache.lookup, ResultCache.store]

/-- **C3.** Every query that reaches `status = ready` stores and reports at
most the clamped `filter.limit` records: `totalRecords` is bounded by the
parsed limit, and the cache entry created under the response's uid holds
exactly `totalRecords` records — no matter how many rows the local
datasource and the forwarded neighbors (the oracle) returned. -/
theorem executeQuery_totalRecords_le_limit (o : Orchestrator)
    (remote : RemoteOracle) (freshUid : String) (now : Nat) (req : QueryRequest)
    (resp : QueryResponse) (o2 : Orchestrator)
    (hrun : o.executeQuery remote freshUid now req = (resp, o2))
    (hready : resp.status = "ready") :
    ∃ f : QueryFilters, parseFilters req.queryParams o.defaultLimit = some f ∧
      ∃ l : Int, f.limit = some l ∧
        (resp.totalRecords : Int) ≤ l ∧
        ∃ entry : ChunkedResult, o2.cache.lookup resp.uid = some entry ∧
          entry.records.length = resp.totalRecords := by
  simp only [Orchestrator.executeQuery] at hrun
  by_cases hloop : o.process.id ∈ req.hops
  · rw [if_pos hloop, Prod.mk.injEq] at hrun
    obtain ⟨hA, _⟩ := hrun
    rw [← hA] at hready
    simp at hready
  · rw [if_neg hloop] at hrun
    rcases hp : parseFilters req.queryParams o.defaultLimit with _ | f
    · simp only [hp] at hrun
      rw [Prod.mk.injEq] at hrun
      obtain ⟨hA, _⟩ := hrun
      rw [← hA] at hready
      simp at hready
    · simp only [hp] at hrun
      split at hrun
      · rw [Prod.mk.injEq] at hrun
        obtain ⟨hA, _⟩ := hrun
        rw [← hA] at hready
        simp at hready
      · rw [Prod.mk.injEq] at hrun
        obtain ⟨hA, hB⟩ := hrun
        obtain ⟨l, hfl, hl1⟩ := parseFilters_limit_isSome _ _ _ hp
        have hlen := collectRecords_length_le o remote f
          (req.hops ++ [o.process.id]) req.clientId
        rw [hfl, Option.getD_some] at hlen
        refine ⟨f, rfl, l, hfl, ?_, ?_⟩
        · rw [← hA]
          show (((o.collectRecords remote f (req.hops ++ [o.process.id])
              req.clientId).1).length : Int) ≤ l
          omega
        · rw [← hA, ← hB]
          exact ⟨_, lookup_store o.cache _, rfl⟩

/-- An orchestrator holding three local records, used by the C3 witness. -/
def localOrch : Orchestrator :=
  { cacheOrch with
    localRecords := some [sampleRow 10, sampleRow 20, sampleRow 30]
    cache := { ttl := 300, entries := [] } }

/-- The request of the C3 witness: limit 2 over three matching rows. -/
def limitedReq : QueryRequest :=
  { queryType := "filter", queryParams := some { limit := some 2 }, hops := []
    clientId := "c" }

/-- Witness for C3: a `ready` run of `executeQuery` on `localOrch` with
limit 2 reports and stores at most 2 records. -/
theorem executeQuery_totalRecords_le_limit_witness :
    (∃ resp : QueryResponse, ∃ o2 : Orchestrator,
      localOrch.executeQuery (fun _ _ => []) "u1" 0 limitedReq = (resp, o2) ∧
      resp.status = "ready" ∧
      (∃ f : QueryFilters, parseFilters limitedReq.queryParams localOrch.defaultLimit = some f ∧
        ∃ l : Int, f.limit = some l ∧
          (resp.totalRecords : Int) ≤ l ∧
          ∃ entry : ChunkedResult, o2.cache.lookup resp.uid = some entry ∧
            entry.records.length = resp.totalRecords)) := by
  refine ⟨(localOrch.executeQuery (fun _ _ => []) "u1" 0 limitedReq).1,
    (localOrch.executeQuery (fun _ _ => []) "u1" 0 limitedReq).2, rfl, ?_, ?_⟩
  · decide
  · exact executeQuery_totalRecords_le_limit localOrch (fun _ _ => []) "u1" 0 limitedReq
      _ _ rfl (by decide)

end Mini2Chunks
